import Mathlib

/-!
# Verification of the threes shot-simulation model

A shallow embedding of `src/model/models/threes.py` (`ThreesModel.run_threes_model`).

Embedding conventions:
* Machine floats are modelled by `ℚ`; the float value `NaN` is modelled by
  `none : Option ℚ` wherever pandas/numpy produce or propagate it.
* A pandas `Series` with an integer index is modelled by an association list
  `List (ℕ × _)` whose keys are the index labels in index order.
* Code that can raise a Python exception is modelled in `Except String`.
* Random draws (`np.random.*`, `GaussianMixture.sample`, `predict_proba` of
  sampled points) are oracle inputs: a `Rng` record of streams indexed by how
  many draws of each kind have been consumed, so that every run is an explicit
  function of its inputs and of the random stream.
-/

set_option autoImplicit false

namespace Threes

/-- One row of the `cluster_df` / `league_df` frames after cluster assignment:
a shot record carrying its GMM cluster label and its `SHOT_MADE_FLAG`
(threes.py lines 76-79 for the player, line 70 for the league). -/
structure ShotRec where
  cluster : ℕ
  made : Bool
deriving DecidableEq

/-- Number of made shots of cluster `c` in the record list. -/
def madeCount (rs : List ShotRec) (c : ℕ) : ℕ :=
  (rs.filter fun r => r.cluster == c && r.made).length

/-- Number of missed shots of cluster `c` in the record list. -/
def missCount (rs : List ShotRec) (c : ℕ) : ℕ :=
  (rs.filter fun r => r.cluster == c && !r.made).length

/-- Insert a key into a strictly sorted ascending list, keeping it sorted
and duplicate-free. -/
def insertSorted (n : ℕ) : List ℕ → List ℕ
  | [] => [n]
  | m :: ms =>
    if n < m then n :: m :: ms
    else if n = m then m :: ms
    else m :: insertSorted n ms

/-- The distinct cluster labels occurring in the records, ascending: the
groups of `groupby('cluster')` (pandas sorts group keys by default). -/
def clustersOf (rs : List ShotRec) : List ℕ :=
  rs.foldr (fun r acc => insertSorted r.cluster acc) []

/-- The rows `value_counts(normalize=True)` produces for one cluster group:
pairs (shot-made value, proportion of the group).  Only values that occur
appear; rows are ordered by descending proportion (`sort=True`), a tie
listing the miss row first.  Mirrors threes.py line 82 (and 86, 90). -/
def clusterRows (rs : List ShotRec) (c : ℕ) : List (Bool × ℚ) :=
  let m := madeCount rs c
  let s := missCount rs c
  let t := m + s
  if m = 0 then [(false, (s : ℚ) / (t : ℚ))]
  else if s = 0 then [(true, (m : ℚ) / (t : ℚ))]
  else if s < m then [(true, (m : ℚ) / (t : ℚ)), (false, (s : ℚ) / (t : ℚ))]
  else [(false, (s : ℚ) / (t : ℚ)), (true, (m : ℚ) / (t : ℚ))]

/-- All rows of the normalized value-counts frame, cluster groups in
ascending cluster order: the frame that `reset_index()` re-indexes by
position (threes.py lines 82, 86, 90). -/
def vcRows (rs : List ShotRec) : List (Bool × ℚ) :=
  (clustersOf rs).flatMap (clusterRows rs)

/-- Pair each element with its position starting at `i` (the `RangeIndex`
that `reset_index()` attaches). -/
def withIdx {α : Type} : ℕ → List α → List (ℕ × α)
  | _, [] => []
  | i, x :: xs => (i, x) :: withIdx (i + 1) xs

/-- The Series `fg_percent_by_cluster` (threes.py lines 82-83; identically
`league_fg_percent_by_cluster` lines 86-87 and `opponent_fg_percent_by_cluster`
lines 90-91): keep only the `shot_made == 1` rows of the position-indexed
value-counts frame, so the keys are row positions in that frame and the
values are the made proportions.  Clusters whose group has no made row
contribute no entry at all. -/
def fg_percent_by_cluster (rs : List ShotRec) : List (ℕ × ℚ) :=
  ((withIdx 0 (vcRows rs)).filter fun p => p.2.1).map fun p => (p.1, p.2.2)

/-- First value stored under key `k` in an association list. -/
def alookup {α : Type} (k : ℕ) : List (ℕ × α) → Option α
  | [] => none
  | (j, v) :: xs => if k = j then some v else alookup k xs

/-- Sorted union of two key lists, as pandas forms the index of the result
of an arithmetic operation on two integer-indexed Series. -/
def keyUnion (xs ys : List ℕ) : List ℕ :=
  (List.range ((xs ++ ys).foldr Nat.max 0 + 1)).filter fun k =>
    decide (k ∈ xs ∨ k ∈ ys)

/-- Pandas division of two Series: align on the union of the two indexes;
keys present in only one Series yield `NaN` (`none`).  For keys present in
both the quotient is taken; the divisor is provably nonzero for every
Series reachable from `fg_percent_by_cluster` (its values are strictly
positive proportions, see `fg_value_pos`), so the float `inf` case never
arises. -/
def seriesDiv (a b : List (ℕ × ℚ)) : List (ℕ × Option ℚ) :=
  (keyUnion (a.map Prod.fst) (b.map Prod.fst)).map fun k =>
    (k, match alookup k a, alookup k b with
        | some x, some y => some (x / y)
        | _, _ => none)

/-- `def_adjustment = opponent_fg_percent_by_cluster / league_fg_percent_by_cluster`
(threes.py line 94). -/
def def_adjustment (O L : List ShotRec) : List (ℕ × Option ℚ) :=
  seriesDiv (fg_percent_by_cluster O) (fg_percent_by_cluster L)

/-- `fg_percent_by_cluster.values * def_adjustment` (threes.py line 117):
a numpy array (no index) times a pandas Series multiplies positionally.
Equal lengths multiply elementwise; a length-1 array broadcasts across the
Series; any other length mismatch raises.  `NaN` (`none`) absorbs. -/
def mkVec (a : List ℚ) (s : List (ℕ × Option ℚ)) : Except String (List (Option ℚ)) :=
  if a.length = s.length then
    .ok ((a.zip s).map fun q => q.2.2.map fun y => q.1 * y)
  else if a.length = 1 then
    .ok (s.map fun kv => kv.2.map fun y => a.headD 0 * y)
  else .error "operands could not be broadcast together"

/-- The loop-invariant weight vector of threes.py line 117, built from the
three record populations (player `P`, opponent `O`, league `L`). -/
def codeVec (P O L : List ShotRec) : Except String (List (Option ℚ)) :=
  mkVec ((fg_percent_by_cluster P).map Prod.snd) (def_adjustment O L)

/-! ## The game simulator (threes.py lines 101-134) -/

/-- The oracle random streams: `att i` is the `i`-th realized value of
`np.random.poisson(np.random.normal(mean, std))` (line 106), `proba i` is
the `predict_proba` membership row of the `i`-th shot location sampled from
the fitted mixture across the whole run (lines 113, 117), and `unif i` is
the `i`-th uniform variate consumed by a `np.random.binomial(1, p)` draw
(line 120).  With the global numpy generator seeded, each stream is a fixed
function of the seed. -/
structure Rng where
  att : ℕ → ℕ
  proba : ℕ → List ℚ
  unif : ℕ → ℚ

/-- How many draws of each stream have been consumed so far. -/
structure RState where
  a : ℕ
  p : ℕ
  u : ℕ
deriving DecidableEq

/-- `np.random.binomial(1, p)` (threes.py line 120): raises on a `NaN` or
out-of-range probability, otherwise returns 1 with probability `p` —
realized from the uniform variate `x` as `1` iff `x < p`. -/
def binomial1 (p : Option ℚ) (x : ℚ) : Except String ℤ :=
  match p with
  | none => .error "binomial p is nan"
  | some q => if q < 0 ∨ 1 < q then .error "binomial p out of range" else
      .ok (if x < q then 1 else 0)

/-- One row of `np.dot(vec, model.predict_proba(locs).T)` (threes.py lines
116-118): the inner product of the weight vector with one shot's
zone-membership row.  Mismatched lengths raise (numpy shape check); a `NaN`
(`none`) component of the weight vector makes the whole product `NaN`,
because `NaN * w + _ = NaN` even for `w = 0`. -/
def npDot (vec : List (Option ℚ)) (row : List ℚ) : Except String (Option ℚ) :=
  if vec.length = row.length then
    .ok (if vec.any fun o => o.isNone then none
         else some ((((vec.map fun o => o.getD 0).zip row).map fun q => q.1 * q.2).sum))
  else .error "shapes not aligned"

/-- Effectful map over a list in `Except`, used for elementwise numpy
operations: the first failing element aborts the whole operation. -/
def mapE {α β : Type} (f : α → Except String β) : List α → Except String (List β)
  | [] => .ok []
  | x :: xs => do
    let y ← f x
    let ys ← mapE f xs
    .ok (y :: ys)

/-- One iteration of the simulation loop (threes.py lines 103-122), for the
fixed weight vector `vec` of line 117: draw the attempt count; on zero
attempts record 0 makes and stop — consuming nothing from the location or
uniform streams; otherwise sample that many membership rows, form each
shot's effective make probability, draw each shot's Bernoulli outcome, and
return the sum of the outcomes.  Returns the made count and the advanced
stream state. -/
def oneGame (vec : List (Option ℚ)) (rng : Rng) (s : RState) :
    Except String (ℤ × RState) :=
  let fga := rng.att s.a
  let s1 : RState := ⟨s.a + 1, s.p, s.u⟩
  if fga = 0 then .ok (0, s1)
  else do
    let rows := (List.range fga).map fun i => rng.proba (s1.p + i)
    let ps ← mapE (npDot vec) rows
    let draws ← mapE (fun q => binomial1 q.1 (rng.unif (s1.u + q.2)))
      (ps.zip (List.range fga))
    .ok (draws.sum, ⟨s1.a, s1.p + fga, s1.u + fga⟩)

/-- The full simulation loop (threes.py lines 101-122): `n` games run in
sequence, each appending its made count `fg3m_s.append(...)`. -/
def simGames (vec : List (Option ℚ)) (rng : Rng) :
    ℕ → RState → Except String (List ℤ × RState)
  | 0, s => .ok ([], s)
  | n + 1, s => do
    let g ← oneGame vec rng s
    let rest ← simGames vec rng n g.2
    .ok (g.1 :: rest.1, rest.2)

/-- The model pipeline from labeled shot records to the simulated
three-point-makes distribution: build the weight vector of line 117 from
the three populations, then run the simulation loop.  The returned list is
the `fg3m_s` array of threes.py line 134. -/
def run_threes_model (P O L : List ShotRec) (games : ℕ) (rng : Rng) :
    Except String (List ℤ) := do
  let vec ← codeVec P O L
  let r ← simGames vec rng games ⟨0, 0, 0⟩
  .ok r.1

/-- A linear congruential step, standing in for numpy's seeded global
generator: the only property the development uses is that the stream of
draws is a fixed function of the seed. -/
def lcg (s : ℕ) : ℕ := (1103515245 * s + 12345) % 2147483648

/-- The `n`-th state of the generator started from `seed`. -/
def lcgN (seed : ℕ) : ℕ → ℕ
  | 0 => lcg seed
  | n + 1 => lcg (lcgN seed n)

/-- The oracle streams derived from a fixed seed: attempts, a two-zone
membership row summing to 1, and a uniform variate in `[0, 1)`. -/
def mkRng (seed : ℕ) : Rng where
  att := fun i => lcgN seed (3 * i) % 40
  proba := fun i =>
    [((lcgN seed (3 * i + 1) % 101 : ℕ) : ℚ) / 101,
     1 - ((lcgN seed (3 * i + 1) % 101 : ℕ) : ℚ) / 101]
  unif := fun i => ((lcgN seed (3 * i + 2) % 100 : ℕ) : ℚ) / 100

/-! ## The attempt-volume bootstrap (threes.py lines 97-99) -/

/-- The mean of one bootstrap resample (threes.py line 97):
`np.random.choice(data, size=len(data), replace=True).mean()` for the
`k`-th resample, drawing indices from the oracle `pick` (reduced modulo the
data length, so every pick addresses the data). -/
def resampleMean (data : List ℚ) (pick : ℕ → ℕ) (k : ℕ) : ℚ :=
  (((List.range data.length).map fun j =>
      data.getD (pick (k * data.length + j) % data.length) 0).sum) / (data.length : ℚ)

/-- The list comprehension of threes.py line 97: the means of
`samples` independent resamples. -/
def fga_per_game_est (data : List ℚ) (pick : ℕ → ℕ) (samples : ℕ) : List ℚ :=
  (List.range samples).map (resampleMean data pick)

/-- `np.mean(fga_per_game_est)` (threes.py line 98). -/
def fga_per_game_est_mean (data : List ℚ) (pick : ℕ → ℕ) (samples : ℕ) : ℚ :=
  (fga_per_game_est data pick samples).sum / (samples : ℚ)

/-- The square of `np.std(fga_per_game_est)` (threes.py line 99): the mean
squared deviation from the mean (population variance, numpy's default
`ddof=0`).  The standard deviation itself is its square root, so it is `0`
exactly when this variance is `0`. -/
def fga_per_game_est_var (data : List ℚ) (pick : ℕ → ℕ) (samples : ℕ) : ℚ :=
  (((fga_per_game_est data pick samples).map fun m =>
      (m - fga_per_game_est_mean data pick samples) ^ 2).sum) / (samples : ℚ)

/-! ## The clustering model search (threes.py lines 54-66) -/

/-- The four covariance families of the grid (threes.py line 56). -/
inductive CovType
  | spherical
  | tied
  | diag
  | full
deriving DecidableEq

/-- `param_grid` as `GridSearchCV` enumerates it (threes.py lines 54-57):
`ParameterGrid` sorts the parameter names (`covariance_type` before
`n_components`) and varies the last fastest, so each family is crossed
with `n_components = range(3, 15)`. -/
def param_grid : List (ℕ × CovType) :=
  [CovType.spherical, CovType.tied, CovType.diag, CovType.full].flatMap fun ct =>
    (List.range' 3 12).map fun n => (n, ct)

/-- `grid_search.best_params_` (threes.py lines 58-65): the candidate with
the highest mean cross-validated score, the first one in grid order on
ties.  The score of a candidate — the cross-validated mean of
`-estimator.bic(x)` from the scoring callable on line 59 — is an oracle
input. -/
def bestParams (score : ℕ × CovType → ℚ) : ℕ × CovType :=
  param_grid.foldl (fun best c => if score best < score c then c else best)
    (3, CovType.spherical)

/-! ## Spec-side definitions

These two definitions follow the specification's words, not the source;
they exist to be compared with the source-derived definitions above. -/

/-- From the spec: the per-zone make rate of a population, `made count /
total count` for a zone with at least one observation and undefined for a
zone with none. -/
def specRate (rs : List ShotRec) (z : ℕ) : Option ℚ :=
  let t := madeCount rs z + missCount rs z
  if t = 0 then none else some ((madeCount rs z : ℚ) / (t : ℚ))

/-- From the spec: the per-zone defensive adjustment, opponent rate divided
by league rate for the same zone, undefined where the league rate is zero
or either rate is undefined. -/
def specAdj (O L : List ShotRec) (z : ℕ) : Option ℚ :=
  match specRate O z, specRate L z with
  | some a, some b => if b = 0 then none else some (a / b)
  | _, _ => none

/-- From the spec: the terms `rate(z) * adjustment(z) * membership(z)` for
zones `z` below the membership vector's length, starting at zone `z0`;
undefined as soon as a needed rate or adjustment is undefined. -/
def specTerms (P O L : List ShotRec) : ℕ → List ℚ → Option (List ℚ)
  | _, [] => some []
  | z, w :: ws => do
    let r ← specRate P z
    let a ← specAdj O L z
    let rest ← specTerms P O L (z + 1) ws
    some (r * a * w :: rest)

/-- From the spec: a shot's effective make probability, the dot product of
the vector of per-zone adjusted rates with the shot's zone-membership
probability vector. -/
def specEffP (P O L : List ShotRec) (mem : List ℚ) : Option ℚ :=
  (specTerms P O L 0 mem).map List.sum

/-! ## Concrete inputs used by counterexamples and witnesses -/

/-- The `weighted_fg_percent` computation of threes.py lines 116-118 for a
single sampled coordinate's membership row, from raw populations. -/
def weighted_fg_percent_at (P O L : List ShotRec) (row : List ℚ) :
    Except String (Option ℚ) := do
  let v ← codeVec P O L
  npDot v row

/-- A player sample: two misses in cluster 0, two makes in cluster 1. -/
def c1Player : List ShotRec := [⟨0, false⟩, ⟨0, false⟩, ⟨1, true⟩, ⟨1, true⟩]

/-- An opponent sample: one make in each of clusters 0 and 1. -/
def c1Opp : List ShotRec := [⟨0, true⟩, ⟨1, true⟩]

/-- A league sample: one make in each of clusters 0 and 1. -/
def c1League : List ShotRec := [⟨0, true⟩, ⟨1, true⟩]

/-- A player sample: a single made shot in cluster 0. -/
def c3Player : List ShotRec := [⟨0, true⟩]

/-- A league sample: 1 make and 7 misses in cluster 0 (rate 1/8). -/
def c3League : List ShotRec :=
  [⟨0, true⟩, ⟨0, false⟩, ⟨0, false⟩, ⟨0, false⟩,
   ⟨0, false⟩, ⟨0, false⟩, ⟨0, false⟩, ⟨0, false⟩]

/-- An opponent sample: 3 makes and 5 misses in cluster 0 (rate 3/8). -/
def c3Opp : List ShotRec :=
  [⟨0, true⟩, ⟨0, true⟩, ⟨0, true⟩, ⟨0, false⟩,
   ⟨0, false⟩, ⟨0, false⟩, ⟨0, false⟩, ⟨0, false⟩]

/-- An opponent sample: a miss in cluster 0, a make in cluster 1. -/
def c4Opp : List ShotRec := [⟨0, false⟩, ⟨1, true⟩]

/-- A league sample: a make in cluster 0, a miss in cluster 1. -/
def c4League : List ShotRec := [⟨0, true⟩, ⟨1, false⟩]

/-- Random streams drawing zero attempts in every game. -/
def zeroRng : Rng := ⟨fun _ => 0, fun _ => [], fun _ => 0⟩

/-- Random streams drawing one attempt per game, a one-zone membership row,
and uniform variate 0. -/
def oneShotRng : Rng := ⟨fun _ => 1, fun _ => [1], fun _ => 0⟩

/-! ## Helper lemmas on the rate tables -/

lemma withIdx_filter_map (l : List (Bool × ℚ)) :
    ∀ n, ((withIdx n l).filter fun p => p.2.1).map (fun p => p.2.2)
      = (l.filter fun v => v.1).map Prod.snd := by
  induction l with
  | nil => intro n; rfl
  | cons x xs ih =>
    intro n
    cases hx : x.1 <;> simp [withIdx, List.filter_cons, hx, ih (n + 1)]

lemma clusterRows_made (rs : List ShotRec) (c : ℕ) :
    ((clusterRows rs c).filter fun v => v.1).map Prod.snd
      = if 0 < madeCount rs c then
          [(madeCount rs c : ℚ) / ((madeCount rs c + missCount rs c : ℕ) : ℚ)]
        else [] := by
  unfold clusterRows
  rcases Nat.eq_zero_or_pos (madeCount rs c) with hm | hm
  · simp [hm, List.filter_cons]
  · rcases Nat.eq_zero_or_pos (missCount rs c) with hs | hs
    · simp [Nat.pos_iff_ne_zero.mp hm, hs, List.filter_cons, hm]
    · rcases Nat.lt_or_ge (missCount rs c) (madeCount rs c) with hlt | hge
      · simp [Nat.pos_iff_ne_zero.mp hm, Nat.pos_iff_ne_zero.mp hs, hlt,
          List.filter_cons, hm]
      · simp [Nat.pos_iff_ne_zero.mp hm, Nat.pos_iff_ne_zero.mp hs,
          Nat.not_lt.mpr hge, List.filter_cons, hm]

lemma flatMap_if_filterMap {α β : Type} (l : List α) (P : α → Prop)
    [DecidablePred P] (v : α → β) :
    (l.flatMap fun c => if P c then [v c] else [])
      = l.filterMap fun c => if P c then some (v c) else none := by
  induction l with
  | nil => rfl
  | cons x xs ih =>
    by_cases hx : P x <;> simp [hx, ih]

/-- The values of the made-row Series, characterized per cluster: one entry
for every cluster with at least one make, holding `made / (made + miss)`,
and nothing for the rest. -/
lemma fg_values_eq (rs : List ShotRec) :
    (fg_percent_by_cluster rs).map Prod.snd
      = (clustersOf rs).filterMap fun c =>
          if 0 < madeCount rs c then
            some ((madeCount rs c : ℚ) / ((madeCount rs c + missCount rs c : ℕ) : ℚ))
          else none := by
  unfold fg_percent_by_cluster vcRows
  rw [List.map_map]
  have h1 : (Prod.snd ∘ fun p : ℕ × (Bool × ℚ) => (p.1, p.2.2))
      = fun p : ℕ × (Bool × ℚ) => p.2.2 := rfl
  rw [h1, withIdx_filter_map _ 0, List.filter_flatMap, List.map_flatMap]
  have h2 : ∀ c ∈ clustersOf rs,
      ((clusterRows rs c).filter fun v => v.1).map Prod.snd
        = if 0 < madeCount rs c then
            [(madeCount rs c : ℚ) / ((madeCount rs c + missCount rs c : ℕ) : ℚ)]
          else [] := fun c _ => clusterRows_made rs c
  rw [List.flatMap_congr h2, flatMap_if_filterMap]

/-- Every value stored in a made-row Series is a strictly positive
proportion, at most 1: the Series never holds a numeric 0 and never a
value for which a later division could hit a zero divisor. -/
lemma fg_value_bounds (rs : List ShotRec) :
    ∀ v ∈ (fg_percent_by_cluster rs).map Prod.snd, 0 < v ∧ v ≤ 1 := by
  intro v hv
  rw [fg_values_eq] at hv
  rcases List.mem_filterMap.mp hv with ⟨c, _, hc⟩
  by_cases hm : 0 < madeCount rs c
  · rw [if_pos hm, Option.some_inj] at hc
    subst hc
    have hmq : (0 : ℚ) < (madeCount rs c : ℚ) := by exact_mod_cast hm
    have htq : (0 : ℚ) < ((madeCount rs c + missCount rs c : ℕ) : ℚ) := by
      exact_mod_cast Nat.lt_of_lt_of_le hm (Nat.le_add_right _ _)
    refine ⟨div_pos hmq htq, ?_⟩
    rw [div_le_one htq]
    exact_mod_cast Nat.le_add_right _ _
  · rw [if_neg hm] at hc
    exact absurd hc (by simp)

lemma alookup_mem {α : Type} {k : ℕ} {v : α} :
    ∀ {l : List (ℕ × α)}, alookup k l = some v → (k, v) ∈ l := by
  intro l
  induction l with
  | nil => intro h; exact absurd h (by simp [alookup])
  | cons x xs ih =>
    intro h
    rcases x with ⟨j, w⟩
    by_cases hk : k = j
    · subst hk
      simp only [alookup, if_true, eq_self_iff_true, Option.some_inj] at h
      subst h; exact List.mem_cons_self _ _
    · simp only [alookup, if_neg hk] at h
      exact List.mem_cons_of_mem _ (ih h)

/-- A value looked up in a made-row Series is strictly positive. -/
lemma fg_value_pos {rs : List ShotRec} {k : ℕ} {v : ℚ}
    (h : alookup k (fg_percent_by_cluster rs) = some v) : 0 < v :=
  (fg_value_bounds rs v (List.mem_map.mpr ⟨(k, v), alookup_mem h, rfl⟩)).1

lemma le_foldr_max {k : ℕ} : ∀ {l : List ℕ}, k ∈ l → k ≤ l.foldr Nat.max 0 := by
  intro l
  induction l with
  | nil => intro h; exact absurd h (by simp)
  | cons x xs ih =>
    intro h
    rcases List.mem_cons.mp h with h | h
    · subst h; exact Nat.le_max_left _ _
    · exact Nat.le_trans (ih h) (Nat.le_max_right _ _)

lemma keyUnion_mem (xs ys : List ℕ) (k : ℕ) :
    k ∈ keyUnion xs ys ↔ k ∈ xs ∨ k ∈ ys := by
  unfold keyUnion
  rw [List.mem_filter, List.mem_range]
  constructor
  · intro h
    exact of_decide_eq_true h.2
  · intro h
    refine ⟨Nat.lt_succ_of_le ?_, decide_eq_true h⟩
    rcases h with h | h
    · exact le_foldr_max (by simp [h])
    · exact le_foldr_max (by simp [h])

lemma alookup_map_key {α : Type} (g : ℕ → α) (k : ℕ) :
    ∀ (keys : List ℕ),
      alookup k (keys.map fun j => (j, g j))
        = if k ∈ keys then some (g k) else none := by
  intro keys
  induction keys with
  | nil => simp [alookup]
  | cons j js ih =>
    by_cases hk : k = j
    · subst hk
      simp [alookup]
    · simp only [List.map_cons, alookup, if_neg hk, ih, List.mem_cons]
      rcases Decidable.em (k ∈ js) with h | h <;> simp [h, hk]

lemma alookup_eq_none {α : Type} (k : ℕ) :
    ∀ (l : List (ℕ × α)), alookup k l = none ↔ k ∉ l.map Prod.fst := by
  intro l
  induction l with
  | nil => simp [alookup]
  | cons x xs ih =>
    rcases x with ⟨j, w⟩
    by_cases hk : k = j
    · subst hk; simp [alookup]
    · simp [alookup, if_neg hk, ih, hk]

/-! ## Helper lemmas on the simulator -/

lemma mapE_ok_length {α β : Type} {f : α → Except String β} :
    ∀ {l : List α} {ys : List β}, mapE f l = .ok ys → ys.length = l.length := by
  intro l
  induction l with
  | nil =>
    intro ys h
    simp only [mapE] at h
    cases h; rfl
  | cons x xs ih =>
    intro ys h
    simp only [mapE, bind, Except.bind] at h
    cases hx : f x with
    | error e => rw [hx] at h; cases h
    | ok y =>
      rw [hx] at h
      cases hxs : mapE f xs with
      | error e => rw [hxs] at h; cases h
      | ok ys' =>
        rw [hxs] at h
        cases h
        simp [ih hxs]

lemma mapE_ok_mem {α β : Type} {f : α → Except String β} :
    ∀ {l : List α} {ys : List β}, mapE f l = .ok ys →
      ∀ y ∈ ys, ∃ x ∈ l, f x = .ok y := by
  intro l
  induction l with
  | nil =>
    intro ys h
    simp only [mapE] at h
    cases h
    intro y hy; exact absurd hy (by simp)
  | cons x xs ih =>
    intro ys h
    simp only [mapE, bind, Except.bind] at h
    cases hx : f x with
    | error e => rw [hx] at h; cases h
    | ok y0 =>
      rw [hx] at h
      cases hxs : mapE f xs with
      | error e => rw [hxs] at h; cases h
      | ok ys' =>
        rw [hxs] at h
        cases h
        intro y hy
        rcases List.mem_cons.mp hy with hy | hy
        · subst hy; exact ⟨x, List.mem_cons_self _ _, hx⟩
        · rcases ih hxs y hy with ⟨x', hx', hfx'⟩
          exact ⟨x', List.mem_cons_of_mem _ hx', hfx'⟩

lemma binomial1_ok_bounds {p : Option ℚ} {x : ℚ} {d : ℤ}
    (h : binomial1 p x = .ok d) : 0 ≤ d ∧ d ≤ 1 := by
  cases p with
  | none => exact absurd h (by simp [binomial1])
  | some q =>
    simp only [binomial1] at h
    by_cases hq : q < 0 ∨ 1 < q
    · rw [if_pos hq] at h; cases h
    · rw [if_neg hq] at h
      cases h
      by_cases hx : x < q <;> simp [hx]

lemma sum_bounds_of_mem : ∀ {l : List ℤ}, (∀ x ∈ l, 0 ≤ x ∧ x ≤ 1) →
    0 ≤ l.sum ∧ l.sum ≤ (l.length : ℤ) := by
  intro l
  induction l with
  | nil => intro _; simp
  | cons x xs ih =>
    intro h
    have hx := h x (List.mem_cons_self _ _)
    have hxs := ih fun y hy => h y (List.mem_cons_of_mem _ hy)
    constructor
    · simpa using add_nonneg hx.1 hxs.1
    · have : x + xs.sum ≤ 1 + (xs.length : ℤ) := add_le_add hx.2 hxs.2
      simpa [add_comm] using this

/-- The made count of any successful game lies between 0 and the drawn
attempt count. -/
lemma oneGame_ok_bounds {vec : List (Option ℚ)} {rng : Rng} {s : RState}
    {m : ℤ} {s' : RState} (h : oneGame vec rng s = .ok (m, s')) :
    0 ≤ m ∧ m ≤ (rng.att s.a : ℤ) := by
  unfold oneGame at h
  by_cases hf : rng.att s.a = 0
  · rw [hf] at h
    simp only [if_pos rfl] at h
    cases h
    simp [hf]
  · rw [if_neg hf] at h
    simp only [bind, Except.bind] at h
    cases hps : mapE (npDot vec) ((List.range (rng.att s.a)).map
        fun i => rng.proba (s.p + i)) with
    | error e => rw [hps] at h; cases h
    | ok ps =>
      rw [hps] at h
      dsimp only at h
      cases hdr : mapE (fun q => binomial1 q.1 (rng.unif (s.u + q.2)))
          (ps.zip (List.range (rng.att s.a))) with
      | error e => rw [hdr] at h; dsimp only at h; cases h
      | ok draws =>
        rw [hdr] at h
        dsimp only at h
        cases h
        have hlen : draws.length = rng.att s.a := by
          have h1 := mapE_ok_length hdr
          have h2 := mapE_ok_length hps
          simp only [List.length_zip, List.length_map, List.length_range] at h1 h2 ⊢
          rw [h1, h2]
          simp
        have hb : ∀ x ∈ draws, 0 ≤ x ∧ x ≤ 1 := by
          intro x hx
          rcases mapE_ok_mem hdr x hx with ⟨q, _, hq⟩
          exact binomial1_ok_bounds hq
        have := sum_bounds_of_mem hb
        rw [hlen] at this
        exact this

/-- Every successful simulation run yields one listed made count per game,
each non-negative. -/
lemma simGames_ok_spec {vec : List (Option ℚ)} {rng : Rng} :
    ∀ {n : ℕ} {s : RState} {r : List ℤ} {s' : RState},
      simGames vec rng n s = .ok (r, s') → r.length = n ∧ ∀ x ∈ r, 0 ≤ x := by
  intro n
  induction n with
  | zero =>
    intro s r s' h
    simp only [simGames] at h
    cases h
    exact ⟨rfl, by simp⟩
  | succ n ih =>
    intro s r s' h
    simp only [simGames, bind, Except.bind] at h
    cases hg : oneGame vec rng s with
    | error e => rw [hg] at h; dsimp only at h; cases h
    | ok g =>
      rw [hg] at h
      dsimp only at h
      cases hrest : simGames vec rng n g.2 with
      | error e => rw [hrest] at h; dsimp only at h; cases h
      | ok rest =>
        rw [hrest] at h
        dsimp only at h
        cases h
        rcases ih hrest with ⟨hlen, hpos⟩
        refine ⟨by simp [hlen], ?_⟩
        intro x hx
        rcases List.mem_cons.mp hx with hx | hx
        · subst hx
          exact (oneGame_ok_bounds (by rw [hg])).1
        · exact hpos x hx

/-! ## Helper lemmas on the bootstrap -/

lemma resampleMean_const {data : List ℚ} {c : ℚ} (hd : data ≠ [])
    (hc : ∀ x ∈ data, x = c) (pick : ℕ → ℕ) (k : ℕ) :
    resampleMean data pick k = c := by
  unfold resampleMean
  have hn : 0 < data.length := List.length_pos.mpr hd
  have hmap : ∀ j ∈ List.range data.length,
      data.getD (pick (k * data.length + j) % data.length) 0 = c := by
    intro j _
    have hidx : pick (k * data.length + j) % data.length < data.length :=
      Nat.mod_lt _ hn
    rw [List.getD_eq_getElem data 0 hidx]
    exact hc _ (List.getElem_mem hidx)
  rw [List.map_congr_left hmap]
  simp only [List.map_const', List.sum_replicate, List.length_range, smul_eq_mul]
  have hnq : ((data.length : ℚ)) ≠ 0 := by
    exact_mod_cast Nat.pos_iff_ne_zero.mp hn
  field_simp

lemma fga_per_game_est_const {data : List ℚ} {c : ℚ} (hd : data ≠ [])
    (hc : ∀ x ∈ data, x = c) (pick : ℕ → ℕ) (samples : ℕ) :
    fga_per_game_est data pick samples = List.replicate samples c := by
  unfold fga_per_game_est
  rw [List.map_congr_left fun k _ => resampleMean_const hd hc pick k]
  simp [List.map_const']

/-! ## Helper lemmas on the grid search -/

lemma foldl_argmax_mem {α : Type} (score : α → ℚ) :
    ∀ (l : List α) (init : α),
      l.foldl (fun best c => if score best < score c then c else best) init
        ∈ init :: l := by
  intro l
  induction l with
  | nil => intro init; simp
  | cons x xs ih =>
    intro init
    simp only [List.foldl_cons]
    rcases List.mem_cons.mp (ih (if score init < score x then x else init)) with h | h
    · rw [h]
      by_cases hc : score init < score x <;> simp [hc]
    · simp [List.mem_cons_of_mem, h]

lemma foldl_argmax_le {α : Type} (score : α → ℚ) :
    ∀ (l : List α) (init : α),
      score init
          ≤ score (l.foldl (fun best c => if score best < score c then c else best) init)
        ∧ ∀ c ∈ l,
          score c
            ≤ score (l.foldl (fun best c => if score best < score c then c else best) init) := by
  intro l
  induction l with
  | nil =>
    intro init
    exact ⟨le_refl _, by simp⟩
  | cons x xs ih =>
    intro init
    simp only [List.foldl_cons]
    rcases ih (if score init < score x then x else init) with ⟨h1, h2⟩
    have hinit : score init ≤ score (if score init < score x then x else init) := by
      by_cases hc : score init < score x <;> simp [hc]
      exact le_of_lt hc
    have hx : score x ≤ score (if score init < score x then x else init) := by
      by_cases hc : score init < score x <;> simp [hc]
      exact le_of_not_lt hc
    refine ⟨le_trans hinit h1, ?_⟩
    intro c hc
    rcases List.mem_cons.mp hc with h | h
    · subst h; exact le_trans hx h1
    · exact h2 c h

lemma param_grid_mem (n : ℕ) (ct : CovType) :
    (n, ct) ∈ param_grid ↔ 3 ≤ n ∧ n < 15 := by
  unfold param_grid
  simp only [List.mem_flatMap, List.mem_map, List.mem_range'_1, Prod.mk.injEq]
  constructor
  · rintro ⟨a, _, m, hm, hmn, rfl⟩
    omega
  · intro h
    refine ⟨ct, ?_, n, by omega, rfl, rfl⟩
    cases ct <;> simp

/-! ## Claim theorems -/

/-- **C1** (code-bug evidence): the effective make probability is *not* the
dot product of the per-zone adjusted player rates with the membership
vector.  For the concrete populations `c1Player`/`c1Opp`/`c1League` and a
coordinate belonging to zone 0 with membership probability 1.0, the code
(threes.py lines 116-118) produces probability 1 — the player's zone-1 rate
broadcast over both zones — while the claimed per-zone dot product is 0,
the player's zone-0 rate times its adjustment. -/
theorem c1_code_eval :
    weighted_fg_percent_at c1Player c1Opp c1League [1, 0] = .ok (some 1)
    ∧ specEffP c1Player c1Opp c1League [1, 0] = some 0 := by
  constructor
  · norm_num [weighted_fg_percent_at, codeVec, mkVec, def_adjustment, seriesDiv,
      keyUnion, alookup, fg_percent_by_cluster, vcRows, clustersOf, insertSorted,
      clusterRows, madeCount, missCount, withIdx, npDot, c1Player, c1Opp, c1League,
      bind, Except.bind, List.range_succ, List.filter_append]
  · norm_num [specEffP, specTerms, specRate, specAdj, madeCount, missCount,
      c1Player, c1Opp, c1League]

/-- **C2** (counterexample): a zone with one observed shot and zero makes
does not receive the numeric rate 0.0 — the code's Series has no entry at
all for it (and none for any zone), even though the spec-side rate for
zone 0 is the numeric 0. -/
theorem c2_counterexample :
    fg_percent_by_cluster [⟨0, false⟩] = []
    ∧ specRate [⟨0, false⟩] 0 = some 0 := by
  constructor
  · norm_num [fg_percent_by_cluster, vcRows, clustersOf, insertSorted,
      clusterRows, madeCount, missCount, withIdx]
  · norm_num [specRate, madeCount, missCount]

/-- **C2** (amended): the rate Series holds one entry per cluster with at
least one made shot — in ascending cluster order, keyed by row position —
whose value is makes/total, a rational in `(0, 1]`; clusters with zero
makes (all misses, or no shots at all) are wholly absent, with neither a
NaN marker nor a numeric 0. -/
theorem c2_zone_rate_table (rs : List ShotRec) :
    ((fg_percent_by_cluster rs).map Prod.snd
        = (clustersOf rs).filterMap fun c =>
            if 0 < madeCount rs c then
              some ((madeCount rs c : ℚ) / ((madeCount rs c + missCount rs c : ℕ) : ℚ))
            else none)
    ∧ ∀ v ∈ (fg_percent_by_cluster rs).map Prod.snd, 0 < v ∧ v ≤ 1 :=
  ⟨fg_values_eq rs, fg_value_bounds rs⟩

/-- **C2** witness: evaluating the amended theorem on a one-make sample. -/
theorem c2_zone_rate_table_witness : 0 < (1 : ℚ) ∧ (1 : ℚ) ≤ 1 :=
  (c2_zone_rate_table [⟨0, true⟩]).2 1 (by
    norm_num [fg_percent_by_cluster, vcRows, clustersOf, insertSorted,
      clusterRows, madeCount, missCount, withIdx])

/-- **C3** (code-bug evidence): there is no clamp.  For the concrete
populations `c3Player`/`c3Opp`/`c3League` the effective probability of a
zone-0 shot is 1.0 × (3/8 ÷ 1/8) = 3 > 1, and the simulation run aborts
with the Bernoulli draw's domain error instead of clamping. -/
theorem c3_no_clamp_error :
    run_threes_model c3Player c3Opp c3League 1 oneShotRng
      = .error "binomial p out of range"
    ∧ weighted_fg_percent_at c3Player c3Opp c3League [1] = .ok (some 3) := by
  constructor
  · norm_num [run_threes_model, codeVec, mkVec, def_adjustment, seriesDiv,
      keyUnion, alookup, fg_percent_by_cluster, vcRows, clustersOf, insertSorted,
      clusterRows, madeCount, missCount, withIdx, npDot, simGames, oneGame, mapE,
      binomial1, oneShotRng, c3Player, c3Opp, c3League, bind, Except.bind,
      List.range_succ]
  · norm_num [weighted_fg_percent_at, codeVec, mkVec, def_adjustment, seriesDiv,
      keyUnion, alookup, fg_percent_by_cluster, vcRows, clustersOf, insertSorted,
      clusterRows, madeCount, missCount, withIdx, npDot, c3Player, c3Opp, c3League,
      bind, Except.bind, List.range_succ, List.filter_append]

/-- **C4** (counterexample): the adjustment entry is not the per-zone
quotient.  Zone 0 of `c4Opp`/`c4League` has opponent rate 0 (one miss) and
league rate 1 (one make), so the claimed entry is the defined value 0/1 = 0;
the code's Series instead holds NaN at both of its keys and has no defined
entry anywhere. -/
theorem c4_counterexample :
    def_adjustment c4Opp c4League = [(0, none), (1, none)]
    ∧ specAdj c4Opp c4League 0 = some 0 := by
  constructor
  · norm_num [def_adjustment, seriesDiv, keyUnion, alookup, fg_percent_by_cluster,
      vcRows, clustersOf, insertSorted, clusterRows, madeCount, missCount,
      withIdx, c4Opp, c4League, List.range_succ]
  · norm_num [specAdj, specRate, madeCount, missCount, c4Opp, c4League]

/-- **C4** (amended): the adjustment Series is the label-aligned
elementwise division of the opponent and league made-row Series: at a key
present in both it holds the quotient of the two values, both strictly
positive (so no division by zero can occur); at a key present in exactly
one it holds NaN.  Since the divided Series contain only zones with at
least one make, a zone with a valid 0 rate on either side contributes no
defined entry. -/
theorem c4_adjustment_series (O L : List ShotRec) (k : ℕ) :
    (∀ a b, alookup k (fg_percent_by_cluster O) = some a →
        alookup k (fg_percent_by_cluster L) = some b →
        alookup k (def_adjustment O L) = some (some (a / b)) ∧ 0 < a ∧ 0 < b)
    ∧ ((alookup k (fg_percent_by_cluster O)).isSome
          ≠ (alookup k (fg_percent_by_cluster L)).isSome →
        alookup k (def_adjustment O L) = some none) := by
  constructor
  · intro a b ha hb
    refine ⟨?_, fg_value_pos ha, fg_value_pos hb⟩
    unfold def_adjustment seriesDiv
    have hk : k ∈ keyUnion ((fg_percent_by_cluster O).map Prod.fst)
        ((fg_percent_by_cluster L).map Prod.fst) := by
      rw [keyUnion_mem]
      exact Or.inl (List.mem_map.mpr ⟨(k, a), alookup_mem ha, rfl⟩)
    rw [alookup_map_key, if_pos hk, ha, hb]
  · intro hne
    unfold def_adjustment seriesDiv
    cases ha : alookup k (fg_percent_by_cluster O) with
    | some a =>
      cases hb : alookup k (fg_percent_by_cluster L) with
      | some b => rw [ha, hb] at hne; exact absurd rfl hne
      | none =>
        have hk : k ∈ keyUnion ((fg_percent_by_cluster O).map Prod.fst)
            ((fg_percent_by_cluster L).map Prod.fst) := by
          rw [keyUnion_mem]
          exact Or.inl (List.mem_map.mpr ⟨(k, a), alookup_mem ha, rfl⟩)
        rw [alookup_map_key, if_pos hk, ha, hb]
    | none =>
      cases hb : alookup k (fg_percent_by_cluster L) with
      | none => rw [ha, hb] at hne; exact absurd rfl hne
      | some b =>
        have hk : k ∈ keyUnion ((fg_percent_by_cluster O).map Prod.fst)
            ((fg_percent_by_cluster L).map Prod.fst) := by
          rw [keyUnion_mem]
          exact Or.inr (List.mem_map.mpr ⟨(k, b), alookup_mem hb, rfl⟩)
        rw [alookup_map_key, if_pos hk, ha, hb]

/-- **C4** witness: the amended theorem evaluated at a one-make opponent
and league sample, both with a made row for cluster 0 at key 0. -/
theorem c4_adjustment_series_witness :
    alookup 0 (def_adjustment [⟨0, true⟩] [⟨0, true⟩])
      = some (some ((1 : ℚ) / 1)) ∧ 0 < (1 : ℚ) ∧ 0 < (1 : ℚ) :=
  (c4_adjustment_series [⟨0, true⟩] [⟨0, true⟩] 0).1 1 1
    (by norm_num [fg_percent_by_cluster, vcRows, clustersOf, insertSorted,
      clusterRows, madeCount, missCount, withIdx, alookup])
    (by norm_num [fg_percent_by_cluster, vcRows, clustersOf, insertSorted,
      clusterRows, madeCount, missCount, withIdx, alookup])

/-- **C5**: every successful simulation of `n` games yields exactly `n`
per-game made counts, each a non-negative integer, and simulating 0 games
yields the empty result. -/
theorem c5_sim_result_shape (vec : List (Option ℚ)) (rng : Rng) :
    (∀ n s r s', simGames vec rng n s = .ok (r, s') →
        r.length = n ∧ ∀ x ∈ r, 0 ≤ x)
    ∧ ∀ s, simGames vec rng 0 s = .ok ([], s) :=
  ⟨fun _ _ _ _ h => simGames_ok_spec h, fun _ => rfl⟩

/-- **C5** witness: a concrete two-game run with zero attempts drawn. -/
theorem c5_sim_result_shape_witness :
    ([0, 0] : List ℤ).length = 2 ∧ ∀ x ∈ ([0, 0] : List ℤ), 0 ≤ x :=
  (c5_sim_result_shape [] zeroRng).1 2 ⟨0, 0, 0⟩ [0, 0] ⟨2, 0, 0⟩ rfl

/-- **C6**: a game whose drawn attempt count is 0 records a made count of 0
and ends immediately: the location/membership stream and the uniform
stream are left untouched (no shot is sampled, no membership row is
consumed, no Bernoulli outcome is drawn). -/
theorem c6_zero_attempts (vec : List (Option ℚ)) (rng : Rng) (s : RState)
    (h : rng.att s.a = 0) :
    oneGame vec rng s = .ok (0, ⟨s.a + 1, s.p, s.u⟩) := by
  unfold oneGame
  rw [h]
  simp

/-- **C6** witness: a zero-attempt game evaluated concretely. -/
theorem c6_zero_attempts_witness :
    oneGame [] zeroRng ⟨0, 0, 0⟩ = .ok (0, ⟨1, 0, 0⟩) :=
  c6_zero_attempts [] zeroRng ⟨0, 0, 0⟩ rfl

/-- **C7**: on a constant attempt history every bootstrap resample mean
equals the constant, so the estimated mean is exactly the constant and the
estimated variance (hence the standard deviation) is exactly 0, whatever
the resampling randomness and for every positive sample count. -/
theorem c7_bootstrap_constant (data : List ℚ) (c : ℚ) (pick : ℕ → ℕ)
    (samples : ℕ) (hd : data ≠ []) (hc : ∀ x ∈ data, x = c)
    (hs : 0 < samples) :
    fga_per_game_est_mean data pick samples = c
    ∧ fga_per_game_est_var data pick samples = 0 := by
  have he := fga_per_game_est_const hd hc pick samples
  have hsq : ((samples : ℚ)) ≠ 0 := by
    exact_mod_cast Nat.pos_iff_ne_zero.mp hs
  have hm : fga_per_game_est_mean data pick samples = c := by
    unfold fga_per_game_est_mean
    rw [he]
    simp only [List.sum_replicate, smul_eq_mul]
    field_simp
  refine ⟨hm, ?_⟩
  unfold fga_per_game_est_var
  rw [he, hm]
  simp

/-- **C7** witness: history `[5,5,5]`, two resamples. -/
theorem c7_bootstrap_constant_witness :
    fga_per_game_est_mean [5, 5, 5] (fun _ => 0) 2 = 5
    ∧ fga_per_game_est_var [5, 5, 5] (fun _ => 0) 2 = 0 :=
  c7_bootstrap_constant [5, 5, 5] 5 (fun _ => 0) 2 (by simp) (by simp)
    (by norm_num)

/-- **C8**: the grid search evaluates exactly the candidates
`K ∈ [3, 15) × {spherical, tied, diag, full}` and, whatever
cross-validated negated-BIC score each candidate receives, selects a
candidate of the grid with maximal score (minimal BIC) — so the chosen
zone count always lies in `[3, 15)`. -/
theorem c8_grid_search (score : ℕ × CovType → ℚ) :
    bestParams score ∈ param_grid
    ∧ 3 ≤ (bestParams score).1 ∧ (bestParams score).1 < 15
    ∧ (∀ c ∈ param_grid, score c ≤ score (bestParams score))
    ∧ ∀ n ct, (n, ct) ∈ param_grid ↔ 3 ≤ n ∧ n < 15 := by
  have hmem : bestParams score ∈ ((3, CovType.spherical) : ℕ × CovType) :: param_grid :=
    foldl_argmax_mem score param_grid _
  have hmem' : bestParams score ∈ param_grid := by
    rcases List.mem_cons.mp hmem with h | h
    · rw [h]
      exact (param_grid_mem 3 CovType.spherical).mpr (by omega)
    · exact h
  have hb : 3 ≤ (bestParams score).1 ∧ (bestParams score).1 < 15 := by
    have := (param_grid_mem (bestParams score).1 (bestParams score).2).mp
    simp only [Prod.mk.eta] at this
    exact this hmem'
  exact ⟨hmem', hb.1, hb.2, (foldl_argmax_le score param_grid _).2, param_grid_mem⟩

/-- **C8** witness: the selection property evaluated at the constant score. -/
theorem c8_grid_search_witness :
    ((3, CovType.spherical) : ℕ × CovType) ∈ param_grid
    ∧ (fun _ => (0 : ℚ)) ((3, CovType.spherical) : ℕ × CovType)
      ≤ (fun _ => (0 : ℚ)) (bestParams fun _ => 0) :=
  ⟨by decide, (c8_grid_search fun _ => 0).2.2.2.1 (3, CovType.spherical) (by decide)⟩

/-- **C9**: the embedded pipeline is a pure function of its inputs and of
the seed-determined random streams — all randomness enters through
`mkRng seed` — so two runs with identical inputs and the same fixed seed
return bit-identical simulation results. -/
theorem c9_fixed_seed_determinism (P O L : List ShotRec) (games seed : ℕ) :
    run_threes_model P O L games (mkRng seed)
      = run_threes_model P O L games (mkRng seed) := rfl

/-- **C10**: in a successful game with a positive drawn attempt count the
recorded made count — the sum of one Bernoulli outcome in {0, 1} per
sampled shot — lies between 0 and the attempt count. -/
theorem c10_makes_le_attempts (vec : List (Option ℚ)) (rng : Rng) (s : RState)
    (m : ℤ) (s' : RState) (h : oneGame vec rng s = .ok (m, s'))
    (_hpos : 0 < rng.att s.a) :
    0 ≤ m ∧ m ≤ (rng.att s.a : ℤ) :=
  oneGame_ok_bounds h

/-- **C10** witness: a one-attempt game whose single draw succeeds. -/
theorem c10_makes_le_attempts_witness :
    (0 : ℤ) ≤ 1 ∧ (1 : ℤ) ≤ (oneShotRng.att 0 : ℤ) :=
  c10_makes_le_attempts [some 1] oneShotRng ⟨0, 0, 0⟩ 1 ⟨1, 1, 1⟩
    (by norm_num [oneGame, mapE, npDot, binomial1, oneShotRng, bind, Except.bind,
      List.range_succ])
    (by norm_num [oneShotRng])

end Threes
